import Mathlib

/-!
Shallow embedding of the TechSprint course-platform backend (server/index.js).

The server is a stateless Express app over MongoDB collections `users`,
`all-courses` and `enrolled-courses`, plus Firebase token verification.
We model each collection as a `List` of documents (in the collection's
natural order, which is insertion order for these workloads), each HTTP
handler as a pure function from its inputs and the relevant collection
state to a response and a new state, and the external identity verifier
as an oracle parameter.  Optional / possibly-absent JSON fields are
modelled as `Option`; JavaScript truthiness on strings is modelled
explicitly (`""`, `null`, `undefined` are falsy).
-/

namespace TechSprint

/-- Does the character list `needle` start the character list `hay`? -/
def startsWithChars : List Char → List Char → Bool
  | _, [] => true
  | [], _ :: _ => false
  | h :: hs, n :: ns => h = n && startsWithChars hs ns

/-- Does `hay` contain `needle` as a contiguous run of characters? -/
def containsChars : List Char → List Char → Bool
  | [], needle => needle.isEmpty
  | h :: hs, needle => startsWithChars (h :: hs) needle || containsChars hs needle

/-- JS `String.prototype.split` on a single-character separator (keeping
empty segments), over character lists. -/
def splitChars (sep : Char) : List Char → List (List Char)
  | [] => [[]]
  | c :: cs =>
      let r := splitChars sep cs
      if c = sep then [] :: r
      else
        match r with
        | [] => [[c]]
        | g :: gs => (c :: g) :: gs

/-- Split a character list at the first occurrence of the separator
sequence `sep`, returning the pieces before and after it. -/
def splitFirstSeq (sep : List Char) : List Char → Option (List Char × List Char)
  | [] => if sep.isEmpty then some ([], []) else none
  | c :: cs =>
      if startsWithChars (c :: cs) sep then some ([], (c :: cs).drop sep.length)
      else (splitFirstSeq sep cs).map (fun ab => (c :: ab.1, ab.2))

/-- JS truthiness of a possibly-absent string value: `undefined`/`null`
(here `none`) and the empty string are falsy. -/
def truthy : Option String → Bool
  | some s => s ≠ ""
  | none => false

/-- JS `a || b` on possibly-absent strings, as used by `c.image || c.imageUrl`. -/
def orStr (a b : Option String) : Option String :=
  if truthy a then a else b

/-- Generic handler result: success payload or an HTTP error response
`res.status(status).send({ error: msg })`. -/
inductive HResult (α : Type) where
  | ok (val : α)
  | err (status : Nat) (msg : String)
deriving DecidableEq, Repr

/-- `ObjectId.isValid` from the mongodb driver: a 24-character hex string,
or any 12-character string (interpreted as 12 raw bytes). -/
def isValidObjectId (s : String) : Bool :=
  (s.length = 24 && s.toList.all (fun c => c.isDigit || ('a' ≤ c && c ≤ 'f') || ('A' ≤ c && c ≤ 'F')))
    || s.length = 12

/-- Mongo cursor `.limit(n)` / aggregation `$limit`: `limit(0)` means
"no limit", otherwise truncate to the first `n` documents. -/
def mongoLimit (n : Nat) (l : List α) : List α :=
  if n = 0 then l else l.take n

/-! ## Users collection and the `/users` endpoints -/

/-- A document of the `users` collection, as inserted by `POST /users`:
`{ email, name, photo, role }` where `name` and `photo` are copied from the
request body and may be absent. -/
structure UserRec where
  email : String
  name : Option String
  photo : Option String
  role : String
deriving DecidableEq, Repr

/-- `users.findOne({ email })`: first document in natural order with that email. -/
def findUser (users : List UserRec) (email : String) : Option UserRec :=
  users.find? (fun u => u.email = email)

/-- Request body of `POST /users`; every field may be absent. -/
structure UsersBody where
  email : Option String
  name : Option String
  photo : Option String
  role : Option String
deriving DecidableEq, Repr

/-- Response payload of `POST /users`: either the existing user document
(first-login upsert hit) or `{ insertedId }` for a fresh insert (we only
record that an insert happened). -/
inductive UsersResponse where
  | existing (u : UserRec)
  | inserted
deriving DecidableEq, Repr

/-- `POST /users` handler: destructures `{ email, name, photo, role = 'student' }`
from the body, rejects a falsy email with 400, returns the existing document
unchanged if one matches the email, and otherwise inserts
`{ email, name, photo, role }`. -/
def postUsers (body : UsersBody) (users : List UserRec) :
    HResult UsersResponse × List UserRec :=
  if !truthy body.email then (.err 400 "Email required", users)
  else
    let email := body.email.getD ""
    match findUser users email with
    | some existing => (.ok (.existing existing), users)
    | none =>
        (.ok .inserted,
         users ++ [{ email := email, name := body.name, photo := body.photo,
                     role := body.role.getD "student" }])

/-! ## Auth middlewares: `verifyUser` and `checkRole` -/

/-- Outcome of a middleware chain on a protected route: either the request
proceeds to the handler with the authenticated email attached
(`req.user.email`), or it was rejected with an HTTP error. -/
inductive GateOutcome where
  | proceed (email : String)
  | reject (status : Nat) (msg : String)
deriving DecidableEq, Repr

/-- `verifyUser` middleware: requires an `Authorization: Bearer <token>`
header (else 401 "No token"), then delegates to the external identity
verifier `verify` (Firebase `verifyIdToken`), modelled as an oracle from
token to optional decoded email; a failed verification is 403
"Invalid token". -/
def verifyUser (verify : String → Option String) (authHeader : Option String) :
    GateOutcome :=
  match authHeader with
  | none => .reject 401 "No token"
  | some h =>
      if !startsWithChars h.toList "Bearer ".toList then .reject 401 "No token"
      else
        match verify (String.mk ((splitChars ' ' h.toList).getD 1 [])) with
        | none => .reject 403 "Invalid token"
        | some email => .proceed email

/-- `checkRole(requiredRole)` middleware body, given the authenticated
email: looks the email up in the `users` collection; 403 "User not found"
if absent, `next()` if the stored role equals the required role, and 403
"Forbidden: wrong role" otherwise. -/
def checkRole (requiredRole : String) (users : List UserRec) (email : String) :
    GateOutcome :=
  match findUser users email with
  | none => .reject 403 "User not found"
  | some found =>
      if found.role = requiredRole then .proceed email
      else .reject 403 "Forbidden: wrong role"

/-- The full gate of a role-protected route: `verifyUser` then `checkRole`. -/
def roleGate (requiredRole : String) (verify : String → Option String)
    (authHeader : Option String) (users : List UserRec) : GateOutcome :=
  match verifyUser verify authHeader with
  | .proceed email => checkRole requiredRole users email
  | .reject s m => .reject s m

/-! ## Course collection, Joi schema and course endpoints -/

/-- The `instructor` subdocument of a course document as stored in the
`all-courses` collection; legacy documents may lack any of the keys. -/
structure InstructorDoc where
  name : Option String
  email : Option String
  photo : Option String
deriving DecidableEq, Repr

/-- A document of the `all-courses` collection.  Timestamps are modelled
as naturals (`Date` values compared by their epoch ordering); `imageUrl`
is a legacy field some pre-existing documents carry instead of `image`.
Every field other than `_id` may be absent in a legacy document. -/
structure CourseDoc where
  id : String
  title : Option String
  image : Option String
  imageUrl : Option String
  price : Option Int
  duration : Option String
  category : Option String
  description : Option String
  isFeatured : Option Bool
  instructor : Option InstructorDoc
  createdAt : Option Nat
  updatedAt : Option Nat
deriving DecidableEq, Repr

/-- Request body of `POST /courses` (shape already JSON-typed; presence of
each key is the `Option`). -/
structure InstructorPayload where
  name : Option String
  email : Option String
  photo : Option String
deriving DecidableEq, Repr

/-- Course creation payload for the Joi `courseSchema`. -/
structure CoursePayload where
  title : Option String
  image : Option String
  price : Option Int
  duration : Option String
  category : Option String
  description : Option String
  isFeatured : Option Bool
  instructor : Option InstructorPayload
deriving DecidableEq, Repr

/-- Model of Joi's `string().uri()` format check: a nonempty scheme, the
literal `://`, and a nonempty remainder. -/
def isValidUri (s : String) : Bool :=
  match splitFirstSeq [':', '/', '/'] s.toList with
  | some (scheme, rest) => !scheme.isEmpty && !rest.isEmpty
  | none => false

/-- Model of Joi's `string().email()` format check: one `@`, a nonempty
local part, and a domain of at least two nonempty dot-separated labels. -/
def isValidEmail (s : String) : Bool :=
  match splitChars '@' s.toList with
  | [lp, dom] =>
      !lp.isEmpty && (splitChars '.' dom).length ≥ 2 &&
        (splitChars '.' dom).all (fun p => !p.isEmpty)
  | _ => false

/-- Joi `string().required()` on one key: absent or empty strings are
rejected, and the error message names the key. -/
def requiredString (key : String) (v : Option String) : Option String :=
  match v with
  | none => some key
  | some s => if s = "" then some key else none

/-- Joi `string().uri().required()` on one key. -/
def requiredUri (key : String) (v : Option String) : Option String :=
  match v with
  | none => some key
  | some s => if isValidUri s then none else some key

/-- Joi `number().min(0).required()` on one key. -/
def requiredMin0 (key : String) (v : Option Int) : Option String :=
  match v with
  | none => some key
  | some n => if 0 ≤ n then none else some key

/-- Joi `string().email().required()` on one key. -/
def requiredEmail (key : String) (v : Option String) : Option String :=
  match v with
  | none => some key
  | some s => if s ≠ "" && isValidEmail s then none else some key

/-- The constraint of Joi `string().uri().allow('')` on a present value:
the empty string or a URI (an absent value also passes, the key not being
required). -/
def photoOk (v : Option String) : Bool :=
  match v with
  | none => true
  | some s => s = "" || isValidUri s

/-- Joi `string().uri().allow('')` on one optional key: an absent value
passes, a present value must be the empty string or a URI. -/
def optionalUriOrEmpty (key : String) (v : Option String) : Option String :=
  match v with
  | none => none
  | some s => if s = "" || isValidUri s then none else some key

/-- The Joi `courseSchema.validate(payload)` call with its default
abort-early behaviour: keys are checked in schema order and the name of
the first violated key is returned (`error.details[0].message` names this
key), `none` meaning the payload is valid. -/
def validateCourse (p : CoursePayload) : Option String :=
  (requiredString "title" p.title) <|>
  (requiredUri "image" p.image) <|>
  (requiredMin0 "price" p.price) <|>
  (requiredString "duration" p.duration) <|>
  (requiredString "category" p.category) <|>
  (requiredString "description" p.description) <|>
  (match p.instructor with
   | none => some "instructor"
   | some i =>
       (requiredString "instructor.name" i.name) <|>
       (requiredEmail "instructor.email" i.email) <|>
       (optionalUriOrEmpty "instructor.photo" i.photo))

/-- The schema constraints of `courseSchema` as a list, in schema key
order: each key paired with whether the payload satisfies its
constraint (subkeys of a missing `instructor` are unsatisfied). -/
def checks (p : CoursePayload) : List (String × Bool) :=
  [("title", p.title.any (fun s => s ≠ "")),
   ("image", p.image.any isValidUri),
   ("price", p.price.any (fun n => 0 ≤ n)),
   ("duration", p.duration.any (fun s => s ≠ "")),
   ("category", p.category.any (fun s => s ≠ "")),
   ("description", p.description.any (fun s => s ≠ "")),
   ("instructor", p.instructor.isSome),
   ("instructor.name", p.instructor.any (fun i => i.name.any (fun s => s ≠ ""))),
   ("instructor.email",
     p.instructor.any (fun i => i.email.any (fun s => s ≠ "" && isValidEmail s))),
   ("instructor.photo", p.instructor.any (fun i => photoOk i.photo))]

/-- Abort-early evaluation of a list of named checks: the name of the
first failing check. -/
def chainOf : List (String × Bool) → Option String
  | [] => none
  | kb :: rest => if kb.2 then chainOf rest else some kb.1

/-- The document `{ ...payload, createdAt: new Date() }` inserted by
`POST /courses`, with the driver-generated `_id`. -/
def payloadToDoc (p : CoursePayload) (newId : String) (now : Nat) : CourseDoc :=
  { id := newId
    title := p.title
    image := p.image
    imageUrl := none
    price := p.price
    duration := p.duration
    category := p.category
    description := p.description
    isFeatured := p.isFeatured
    instructor := p.instructor.map (fun i => ⟨i.name, i.email, i.photo⟩)
    createdAt := some now
    updatedAt := none }

/-- `POST /courses` handler body (after the auth middlewares): validates
the payload against `courseSchema`, answering 400 with the first error
message, and otherwise inserts `{ ...payload, createdAt }`.  `newId` is
the ObjectId the driver generates for the insert. -/
def postCourses (p : CoursePayload) (newId : String) (now : Nat)
    (db : List CourseDoc) : HResult String × List CourseDoc :=
  match validateCourse p with
  | some msg => (.err 400 msg, db)
  | none => (.ok newId, db ++ [payloadToDoc p newId now])

/-- `GET /courses/:id` handler: 400 on a malformed id, 404 when no
document matches, otherwise the document. -/
def getCourse (id : String) (db : List CourseDoc) : HResult CourseDoc :=
  if !isValidObjectId id then .err 400 "Invalid id"
  else
    match db.find? (fun c => c.id = id) with
    | none => .err 404 "Course not found"
    | some doc => .ok doc

/-! ## `GET /all-courses`: filtered, paginated listing

The handler puts the raw, unescaped `search` query parameter into
`{ $regex: search, $options: 'i' }`, so the Mongo server interprets it
as a (case-insensitively applied) regular expression.  The server's
regex engine is an external component, modelled — like the identity
verifier — as an oracle `rmatch pattern target`; `pcreLite` below is an
executable model of that engine on the fragment of patterns built from
literal characters and the `.` wildcard, which is the fragment the
theorems exercise. -/

/-- Case-insensitive substring containment: the title contains the
search text ignoring case (what `$regex` amounts to on a
metacharacter-free search text). -/
def containsCI (hay needle : String) : Bool :=
  containsChars (hay.toList.map Char.toLower) (needle.toList.map Char.toLower)

/-- A token of the modelled regex fragment: a literal character or the
`.` wildcard. -/
inductive RTok where
  | lit (c : Char)
  | dot
deriving DecidableEq, Repr

/-- The regex metacharacters (outside character classes). -/
def regexMeta : List Char :=
  ['\\', '^', '$', '.', '|', '?', '*', '+', '(', ')', '[', ']', '\x7b', '\x7d']

/-- Parse a pattern of the modelled fragment: `.` becomes the wildcard,
any other metacharacter is outside the fragment, everything else is a
literal. -/
def parseRegexLite : List Char → Option (List RTok)
  | [] => some []
  | c :: cs =>
      if c = '.' then (parseRegexLite cs).map (fun ts => RTok.dot :: ts)
      else if c ∈ regexMeta then none
      else (parseRegexLite cs).map (fun ts => RTok.lit c :: ts)

/-- Does the token sequence match a prefix of the subject?  Literal
comparison is case-folded, modelling the `i` option. -/
def rtoksPrefixCI : List RTok → List Char → Bool
  | [], _ => true
  | _ :: _, [] => false
  | RTok.lit c :: ts, x :: xs => (x.toLower = c.toLower) && rtoksPrefixCI ts xs
  | RTok.dot :: ts, _ :: xs => rtoksPrefixCI ts xs

/-- Unanchored regex search: the token sequence matches at some
position of the subject. -/
def rtoksSearchCI : List RTok → List Char → Bool
  | ts, [] => ts.isEmpty
  | ts, x :: xs => rtoksPrefixCI ts (x :: xs) || rtoksSearchCI ts xs

/-- Executable model of the Mongo server's regex engine evaluating
`{ $regex: pat, $options: 'i' }` against a string, on the
literal-plus-`.` pattern fragment.  Patterns outside the fragment are
outside the model (`false` here; no theorem relies on the engine's
behaviour there). -/
def pcreLite (pat s : String) : Bool :=
  match parseRegexLite pat.toList with
  | some ts => rtoksSearchCI ts s.toList
  | none => false

/-- Is the search text free of regex metacharacters (so that the regex
interpretation degenerates to literal substring search)? -/
def litOnly (pat : String) : Bool :=
  pat.toList.all (fun c => decide (c ∉ regexMeta))

/-- The Mongo query document built by `GET /all-courses`: an equality
condition on `category` when that query param is truthy, and a
case-insensitive title regex on the raw `search` text when it is truthy,
evaluated by the server's regex engine `rmatch` (a document whose
`title` key is absent never matches a `title` condition). -/
def courseQueryMatches (rmatch : String → String → Bool)
    (category search : Option String) (c : CourseDoc) : Bool :=
  (!truthy category || c.category == category) &&
  (!truthy search ||
    match c.title with
    | some t => rmatch (search.getD "") t
    | none => false)

/-- `GET /all-courses` handler: `{ category, search, page = 1, limit = 100 }`
from the query string (numeric params modelled as parsed naturals), then
`find(q).skip((page-1)*limit).limit(limit)`, the title condition being
evaluated by the server's regex engine `rmatch`. -/
def allCoursesHandler (rmatch : String → String → Bool)
    (category search : Option String) (pageQ limitQ : Option Nat)
    (db : List CourseDoc) : List CourseDoc :=
  let pg := pageQ.getD 1
  let lim := limitQ.getD 100
  mongoLimit lim
    ((db.filter (courseQueryMatches rmatch category search)).drop ((pg - 1) * lim))

/-! ## `GET /featured-courses` -/

/-- Insert a course into a list already sorted by `createdAt` descending
(missing `createdAt` sorts last, as Mongo sorts missing keys lowest). -/
def insertByCreatedAtDesc (c : CourseDoc) : List CourseDoc → List CourseDoc
  | [] => [c]
  | d :: ds =>
      if d.createdAt.getD 0 < c.createdAt.getD 0 then c :: d :: ds
      else d :: insertByCreatedAtDesc c ds

/-- Mongo `.sort({ createdAt: -1 })`: stable sort by `createdAt` descending. -/
def sortByCreatedAtDesc (l : List CourseDoc) : List CourseDoc :=
  l.foldr insertByCreatedAtDesc []

/-- The normalisation `{ ...c, image: c.image || c.imageUrl || '' }` each
returned featured course goes through. -/
def normImage (c : CourseDoc) : CourseDoc :=
  { c with image := some ((orStr c.image (orStr c.imageUrl (some ""))).getD "") }

/-- `GET /featured-courses` handler:
`limit = Math.min(parseInt(req.query.limit || '6', 10), 100)`, then
`find({ isFeatured: true }).sort({ createdAt: -1 }).limit(limit)` and the
image normalisation. -/
def featuredHandler (limitQ : Option Nat) (db : List CourseDoc) : List CourseDoc :=
  let lim := min (limitQ.getD 6) 100
  (mongoLimit lim (sortByCreatedAtDesc (db.filter (fun c => c.isFeatured == some true)))).map
    normImage

/-! ## `GET /instructors` -/

/-- The course documents carrying an `instructor.email` key, projected to
their instructor subdocuments, in collection order (the `$match` stage of
the fallback pipeline). -/
def instructorSubdocs (db : List CourseDoc) : List InstructorDoc :=
  db.filterMap (fun c =>
    match c.instructor with
    | some i => if i.email.isSome then some i else none
    | none => none)

/-- Worker for `dedupeByEmail`: keep the first subdocument per email value. -/
def dedupeGo (seen : List (Option String)) : List InstructorDoc → List InstructorDoc
  | [] => []
  | i :: rest =>
      if i.email ∈ seen then dedupeGo seen rest
      else i :: dedupeGo (i.email :: seen) rest

/-- The `$group: { _id: '$instructor.email', doc: { $first: '$instructor' } }`
plus `$replaceRoot` stages: one subdocument per distinct email, the first
one encountered in pipeline order winning. -/
def dedupeByEmail (l : List InstructorDoc) : List InstructorDoc :=
  dedupeGo [] l

/-- `GET /instructors` handler:
`limit = Math.min(parseInt(req.query.limit || '4', 10), 100)`; primary
source `users.find({ role: 'instructor' }).limit(limit)` mapped to
`{ name, email, photo: u.photo || '' }` (with a further `.slice(0, limit)`),
falling back to the group-by-email aggregation over course instructor
subdocuments when no instructor user exists. -/
def instructorsHandler (limitQ : Option Nat) (users : List UserRec)
    (db : List CourseDoc) : List InstructorDoc :=
  let lim := min (limitQ.getD 4) 100
  let fromUsers := mongoLimit lim (users.filter (fun u => u.role = "instructor"))
  if fromUsers.length > 0 then
    (fromUsers.take lim).map (fun u =>
      ⟨u.name, some u.email, some ((orStr u.photo (some "")).getD "")⟩)
  else
    mongoLimit lim (dedupeByEmail (instructorSubdocs db))

/-! ## `PUT /courses/:id` -/

/-- The `$set` body of `PUT /courses/:id`: any subset of course fields. -/
structure CoursePatch where
  title : Option String
  image : Option String
  imageUrl : Option String
  price : Option Int
  duration : Option String
  category : Option String
  description : Option String
  isFeatured : Option Bool
  instructor : Option InstructorDoc
deriving DecidableEq, Repr

/-- Effect of `$set: { ...payload, updatedAt: new Date() }` on one
document: every key present in the patch overwrites, all others persist,
and `updatedAt` is set. -/
def applyPatch (c : CourseDoc) (p : CoursePatch) (now : Nat) : CourseDoc :=
  { id := c.id
    title := p.title <|> c.title
    image := p.image <|> c.image
    imageUrl := p.imageUrl <|> c.imageUrl
    price := p.price <|> c.price
    duration := p.duration <|> c.duration
    category := p.category <|> c.category
    description := p.description <|> c.description
    isFeatured := p.isFeatured <|> c.isFeatured
    instructor := p.instructor <|> c.instructor
    createdAt := c.createdAt
    updatedAt := some now }

/-- `PUT /courses/:id` handler: 400 on a malformed id; otherwise
`updateOne({ _id }, { $set: ... })` runs first (matching the unique
document with that `_id`, if any) and a zero `matchedCount` is answered
with 404, leaving the collection unchanged. -/
def putCourse (id : String) (p : CoursePatch) (now : Nat)
    (db : List CourseDoc) : HResult Nat × List CourseDoc :=
  if !isValidObjectId id then (.err 400 "Invalid id", db)
  else
    let newDb := db.map (fun d => if d.id = id then applyPatch d p now else d)
    match db.find? (fun d => d.id = id) with
    | none => (.err 404 "Course not found", newDb)
    | some c => (.ok (if applyPatch c p now = c then 0 else 1), newDb)

/-! ## Enrollments: `POST /enroll` and `GET /enrolled` -/

/-- A document of the `enrolled-courses` collection. -/
structure EnrollmentDoc where
  userEmail : String
  courseId : String
  enrolledAt : Nat
deriving DecidableEq, Repr

/-- `POST /enroll` handler body (after the auth middlewares, so
`userEmail = req.user.email`): requires a truthy, well-formed `courseId`,
answers 409 when a `(userEmail, courseId)` document already exists, and
otherwise inserts `{ userEmail, courseId, enrolledAt: new Date() }`. -/
def postEnroll (userEmail : String) (bodyCourseId : Option String) (now : Nat)
    (db : List EnrollmentDoc) : HResult Unit × List EnrollmentDoc :=
  if !truthy bodyCourseId then (.err 400 "courseId required", db)
  else
    let cid := bodyCourseId.getD ""
    if !isValidObjectId cid then (.err 400 "Invalid courseId", db)
    else
      match db.find? (fun e => e.userEmail = userEmail && e.courseId = cid) with
      | some _ => (.err 409 "Already enrolled", db)
      | none => (.ok (), db ++ [⟨userEmail, cid, now⟩])

/-- `GET /enrolled` handler body: `$match` the caller's enrollments, then
`$lookup` into `all-courses` on `courseId = _id` and `$unwind` (one output
entry per matching course document, enrollments with no match dropped),
projected to `{ course, enrolledAt }`. -/
def enrolledHandler (email : String) (enr : List EnrollmentDoc)
    (db : List CourseDoc) : List (CourseDoc × Nat) :=
  (enr.filter (fun e => e.userEmail = email)).flatMap (fun e =>
    (db.filter (fun c => c.id = e.courseId)).map (fun c => (c, e.enrolledAt)))

/-! ## Helper lemmas -/

/-- `find?` skips a prefix on which the predicate never holds. -/
theorem find?_append_of_none {α : Type} {p : α → Bool} :
    ∀ {l₁ : List α} (l₂ : List α), (∀ a ∈ l₁, ¬ p a = true) →
      (l₁ ++ l₂).find? p = l₂.find? p
  | [], _, _ => rfl
  | a :: l₁, l₂, h => by
      have ha : ¬ p a = true := h a (List.mem_cons_self a l₁)
      simp only [List.cons_append, List.find?]
      rw [Bool.eq_false_iff.mpr ha]
      exact find?_append_of_none l₂ (fun b hb => h b (List.mem_cons_of_mem a hb))

/-- A well-formed ObjectId string is nonempty (so it is truthy). -/
theorem isValidObjectId_ne_empty {s : String} (h : isValidObjectId s = true) : s ≠ "" := by
  intro hs
  subst hs
  simp [isValidObjectId, String.length] at h

/-! ## C1: role gating -/

/-- A demonstration identity verifier for witnesses: accepts exactly the
token "tok" as the user `a@x.com`. -/
def demoVerify : String → Option String :=
  fun t => if t = "tok" then some "a@x.com" else none

/-- C1: on a role-gated endpoint, once the credential has been verified
(so `verifyUser` proceeds with an authenticated email), a missing Role
Store record yields the 403 "User not found" rejection (the `Forbidden`
outcome of the role check, not one of `verifyUser`'s `Unauthenticated`
rejections), and with a record present the request proceeds if and only
if the stored role is exactly the required role. -/
theorem C1_roleGate_strict (requiredRole : String) (verify : String → Option String)
    (authHeader : Option String) (users : List UserRec) (email : String)
    (hv : verifyUser verify authHeader = .proceed email) :
    (findUser users email = none →
      roleGate requiredRole verify authHeader users = .reject 403 "User not found") ∧
    (∀ u, findUser users email = some u →
      (roleGate requiredRole verify authHeader users = .proceed email ↔
        u.role = requiredRole)) := by
  constructor
  · intro hnone
    simp [roleGate, hv, checkRole, hnone]
  · intro u hu
    constructor
    · intro hgate
      by_contra hne
      simp [roleGate, hv, checkRole, hu, hne] at hgate
    · intro hrole
      simp [roleGate, hv, checkRole, hu, hrole]

/-- Witness for C1 at a concrete verifier, header, and role store: an
empty role store is rejected 403 "User not found"; a record with the
matching role proceeds; a record with the other role does not proceed. -/
theorem C1_roleGate_strict_witness :
    roleGate "student" demoVerify (some "Bearer tok") [] = .reject 403 "User not found" ∧
    roleGate "student" demoVerify (some "Bearer tok")
      [⟨"a@x.com", none, none, "student"⟩] = .proceed "a@x.com" ∧
    ¬ roleGate "instructor" demoVerify (some "Bearer tok")
      [⟨"a@x.com", none, none, "student"⟩] = .proceed "a@x.com" := by
  refine ⟨?_, ?_, ?_⟩
  · exact (C1_roleGate_strict "student" demoVerify (some "Bearer tok") [] "a@x.com"
      (by decide)).1 (by decide)
  · exact ((C1_roleGate_strict "student" demoVerify (some "Bearer tok")
      [⟨"a@x.com", none, none, "student"⟩] "a@x.com" (by decide)).2
      ⟨"a@x.com", none, none, "student"⟩ (by decide)).mpr (by decide)
  · intro hc
    have := ((C1_roleGate_strict "instructor" demoVerify (some "Bearer tok")
      [⟨"a@x.com", none, none, "student"⟩] "a@x.com" (by decide)).2
      ⟨"a@x.com", none, none, "student"⟩ (by decide)).mp hc
    simp at this

/-! ## C9: first-login upsert is idempotent -/

/-- C9: when a user record already exists for the (truthy) email in the
body, `POST /users` answers with that existing record and leaves the
users collection unchanged — in particular the stored role survives any
role the later call supplies. -/
theorem C9_upsert_idempotent (body : UsersBody) (users : List UserRec) (u : UserRec)
    (he : truthy body.email = true)
    (hf : findUser users (body.email.getD "") = some u) :
    postUsers body users = (.ok (.existing u), users) := by
  simp [postUsers, he, hf]

/-- Witness for C9: a second login carrying role "instructor" still gets
the stored "student" record back, with the collection untouched. -/
theorem C9_upsert_idempotent_witness :
    postUsers ⟨some "a@x.com", some "Mallory", none, some "instructor"⟩
      [⟨"a@x.com", some "Alice", none, "student"⟩] =
      (.ok (.existing ⟨"a@x.com", some "Alice", none, "student"⟩),
       [⟨"a@x.com", some "Alice", none, "student"⟩]) :=
  C9_upsert_idempotent ⟨some "a@x.com", some "Mallory", none, some "instructor"⟩
    [⟨"a@x.com", some "Alice", none, "student"⟩]
    ⟨"a@x.com", some "Alice", none, "student"⟩ (by decide) (by decide)

/-! ## C10: the public first-login endpoint trusts the body's role -/

/-- C10: `POST /users` (a route with no auth middleware) stores, for a
fresh truthy email, exactly the record `{ email, name, photo, role }`
with the role taken from the request body and defaulted to "student"
only when the body omits it; in particular a body carrying
`role = "instructor"` creates an instructor record. -/
theorem C10_public_role_from_body (body : UsersBody) (users : List UserRec)
    (he : truthy body.email = true)
    (hf : findUser users (body.email.getD "") = none) :
    postUsers body users =
      (.ok .inserted,
       users ++ [{ email := body.email.getD "", name := body.name,
                   photo := body.photo, role := body.role.getD "student" }]) ∧
    (body.role = some "instructor" →
      (postUsers body users).2 =
        users ++ [{ email := body.email.getD "", name := body.name,
                    photo := body.photo, role := "instructor" }]) := by
  constructor
  · simp [postUsers, he, hf]
  · intro hr
    simp [postUsers, he, hf, hr]

/-- Witness for C10: an unauthenticated body with `role = "instructor"`
and a fresh email creates an instructor user record. -/
theorem C10_public_role_from_body_witness :
    (postUsers ⟨some "m@x.com", some "Mallory", none, some "instructor"⟩ []).2 =
      [{ email := "m@x.com", name := some "Mallory", photo := none,
         role := "instructor" }] :=
  (C10_public_role_from_body ⟨some "m@x.com", some "Mallory", none, some "instructor"⟩ []
    (by decide) (by decide)).2 (by decide)

/-! ## C2: enrollment conflict handling -/

/-- C2: `POST /enroll` answers 400 on a syntactically invalid (truthy)
courseId; and for a valid courseId with no existing `(userEmail, courseId)`
record, the first call inserts exactly `{ userEmail, courseId, enrolledAt: now }`
and succeeds, a second call for the same pair answers 409 Conflict and
changes nothing, and exactly one record for the pair exists afterward. -/
theorem C2_enroll_conflict (email cid : String) (now now2 : Nat)
    (db : List EnrollmentDoc) :
    (∀ s, s ≠ "" → isValidObjectId s = false →
      postEnroll email (some s) now db = (.err 400 "Invalid courseId", db)) ∧
    (isValidObjectId cid = true →
      db.filter (fun e => e.userEmail = email && e.courseId = cid) = [] →
      postEnroll email (some cid) now db =
        (.ok (), db ++ [(⟨email, cid, now⟩ : EnrollmentDoc)]) ∧
      postEnroll email (some cid) now2 (db ++ [(⟨email, cid, now⟩ : EnrollmentDoc)]) =
        (.err 409 "Already enrolled", db ++ [(⟨email, cid, now⟩ : EnrollmentDoc)]) ∧
      ((db ++ [(⟨email, cid, now⟩ : EnrollmentDoc)]).filter
        (fun e => e.userEmail = email && e.courseId = cid)).length = 1) := by
  constructor
  · intro s hs hv
    simp [postEnroll, truthy, hs, hv]
  · intro hv hnone
    have hne : cid ≠ "" := isValidObjectId_ne_empty hv
    have hfind : db.find? (fun e => e.userEmail = email && e.courseId = cid) = none := by
      rw [List.find?_eq_none]
      intro e he
      have := List.filter_eq_nil_iff.mp hnone e he
      simpa using this
    refine ⟨?_, ?_, ?_⟩
    · simp [postEnroll, truthy, hne, hv, hfind]
    · have hfind2 : (db ++ [(⟨email, cid, now⟩ : EnrollmentDoc)]).find?
          (fun e => e.userEmail = email && e.courseId = cid) = some ⟨email, cid, now⟩ := by
        rw [find?_append_of_none]
        · simp [List.find?]
        · intro e he
          have := List.filter_eq_nil_iff.mp hnone e he
          simpa using this
      simp [postEnroll, truthy, hne, hv, hfind2]
    · rw [List.filter_append, hnone]
      simp

/-- Witness for C2 at a concrete student, courseId and empty collection:
first enroll succeeds, re-enroll answers 409, one record remains, and a
malformed courseId answers 400. -/
theorem C2_enroll_conflict_witness :
    postEnroll "s@x.com" (some "aabbccddeeff001122334455") 5 [] =
      (.ok (), [⟨"s@x.com", "aabbccddeeff001122334455", 5⟩]) ∧
    postEnroll "s@x.com" (some "aabbccddeeff001122334455") 9
      [⟨"s@x.com", "aabbccddeeff001122334455", 5⟩] =
      (.err 409 "Already enrolled", [⟨"s@x.com", "aabbccddeeff001122334455", 5⟩]) ∧
    postEnroll "s@x.com" (some "not-an-id") 5 [] = (.err 400 "Invalid courseId", []) := by
  have h := C2_enroll_conflict "s@x.com" "aabbccddeeff001122334455" 5 9 []
  have h2 := h.2 (by decide) (by decide)
  exact ⟨h2.1, h2.2.1, h.1 "not-an-id" (by decide) (by decide)⟩

/-! ## C6: patch update of a course -/

/-- C6: `PUT /courses/:id` on a well-formed id matching no document
answers 404 and leaves the collection unchanged; on an id matching the
(unique) document `c` it succeeds, replaces `c` by `applyPatch c p now`
(leaving every other document untouched), where the patched document
takes each field from the patch when the patch carries it and from `c`
otherwise — with no schema re-validation — and has `updatedAt = now`. -/
theorem C6_update_notfound_or_patch (id : String) (p : CoursePatch) (now : Nat)
    (db : List CourseDoc) (c : CourseDoc) :
    (isValidObjectId id = true → (∀ d ∈ db, ¬ d.id = id) →
      putCourse id p now db = (.err 404 "Course not found", db)) ∧
    (isValidObjectId id = true → db.find? (fun d => d.id = id) = some c →
      (∃ r, (putCourse id p now db).1 = .ok r) ∧
      (putCourse id p now db).2 =
        db.map (fun d => if d.id = id then applyPatch d p now else d) ∧
      applyPatch c p now ∈ (putCourse id p now db).2 ∧
      (∀ d ∈ db, ¬ d.id = id → d ∈ (putCourse id p now db).2) ∧
      (applyPatch c p now).updatedAt = some now ∧
      (applyPatch c p now).title = (p.title <|> c.title) ∧
      (applyPatch c p now).image = (p.image <|> c.image) ∧
      (applyPatch c p now).price = (p.price <|> c.price) ∧
      (applyPatch c p now).duration = (p.duration <|> c.duration) ∧
      (applyPatch c p now).category = (p.category <|> c.category) ∧
      (applyPatch c p now).description = (p.description <|> c.description) ∧
      (applyPatch c p now).isFeatured = (p.isFeatured <|> c.isFeatured) ∧
      (applyPatch c p now).instructor = (p.instructor <|> c.instructor) ∧
      (applyPatch c p now).createdAt = c.createdAt) := by
  constructor
  · intro hv hnone
    have hfind : db.find? (fun d => d.id = id) = none := by
      rw [List.find?_eq_none]
      intro d hd
      simpa using hnone d hd
    have hmap : db.map (fun d => if d.id = id then applyPatch d p now else d) = db := by
      have : ∀ d ∈ db, (if d.id = id then applyPatch d p now else d) = d := by
        intro d hd
        rw [if_neg (hnone d hd)]
      rw [List.map_congr_left this]
      simp
    simp [putCourse, hv, hfind, hmap]
  · intro hv hfind
    have hcid : c.id = id := by
      have := List.find?_some hfind
      simpa using this
    have hcmem : c ∈ db := List.mem_of_find?_eq_some hfind
    refine ⟨?_, ?_, ?_, ?_, rfl, rfl, rfl, rfl, rfl, rfl, rfl, rfl, rfl, rfl⟩
    · refine ⟨if applyPatch c p now = c then 0 else 1, ?_⟩
      simp [putCourse, hv, hfind]
    · simp [putCourse, hv, hfind]
    · have hmem : applyPatch c p now ∈
          db.map (fun d => if d.id = id then applyPatch d p now else d) :=
        List.mem_map.mpr ⟨c, hcmem, by rw [if_pos hcid]⟩
      simpa [putCourse, hv, hfind] using hmem
    · intro d hd hne
      have hmem : d ∈ db.map (fun d => if d.id = id then applyPatch d p now else d) :=
        List.mem_map.mpr ⟨d, hd, by rw [if_neg hne]⟩
      simpa [putCourse, hv, hfind] using hmem

/-- Witness for C6: a 404 on a valid unmatched id over a one-course
collection, and a patch of just the price on the matching course. -/
theorem C6_update_notfound_or_patch_witness :
    putCourse "ffffffffffffffffffffffff"
      ⟨none, none, none, some 5, none, none, none, none, none⟩ 7
      [{ id := "aabbccddeeff001122334455", title := some "T", image := none,
         imageUrl := none, price := some 3, duration := none, category := none,
         description := none, isFeatured := none, instructor := none,
         createdAt := some 1, updatedAt := none }] =
      (.err 404 "Course not found",
       [{ id := "aabbccddeeff001122334455", title := some "T", image := none,
          imageUrl := none, price := some 3, duration := none, category := none,
          description := none, isFeatured := none, instructor := none,
          createdAt := some 1, updatedAt := none }]) ∧
    applyPatch
      { id := "aabbccddeeff001122334455", title := some "T", image := none,
        imageUrl := none, price := some 3, duration := none, category := none,
        description := none, isFeatured := none, instructor := none,
        createdAt := some 1, updatedAt := none }
      ⟨none, none, none, some 5, none, none, none, none, none⟩ 7 ∈
      (putCourse "aabbccddeeff001122334455"
        ⟨none, none, none, some 5, none, none, none, none, none⟩ 7
        [{ id := "aabbccddeeff001122334455", title := some "T", image := none,
           imageUrl := none, price := some 3, duration := none, category := none,
           description := none, isFeatured := none, instructor := none,
           createdAt := some 1, updatedAt := none }]).2 := by
  constructor
  · exact (C6_update_notfound_or_patch "ffffffffffffffffffffffff"
      ⟨none, none, none, some 5, none, none, none, none, none⟩ 7
      [{ id := "aabbccddeeff001122334455", title := some "T", image := none,
         imageUrl := none, price := some 3, duration := none, category := none,
         description := none, isFeatured := none, instructor := none,
         createdAt := some 1, updatedAt := none }]
      { id := "aabbccddeeff001122334455", title := some "T", image := none,
        imageUrl := none, price := some 3, duration := none, category := none,
        description := none, isFeatured := none, instructor := none,
        createdAt := some 1, updatedAt := none }).1 (by decide) (by decide)
  · exact ((C6_update_notfound_or_patch "aabbccddeeff001122334455"
      ⟨none, none, none, some 5, none, none, none, none, none⟩ 7
      [{ id := "aabbccddeeff001122334455", title := some "T", image := none,
         imageUrl := none, price := some 3, duration := none, category := none,
         description := none, isFeatured := none, instructor := none,
         createdAt := some 1, updatedAt := none }]
      { id := "aabbccddeeff001122334455", title := some "T", image := none,
        imageUrl := none, price := some 3, duration := none, category := none,
        description := none, isFeatured := none, instructor := none,
        createdAt := some 1, updatedAt := none }).2 (by decide) (by decide)).2.2.1

/-! ## C8: the enrolled-courses join -/

/-- Under unique course ids, filtering on an id yields the `find?` result. -/
theorem filter_id_eq_find {db : List CourseDoc} (x : String)
    (h : (db.map (fun c => c.id)).Nodup) :
    db.filter (fun c => c.id = x) = (db.find? (fun c => c.id = x)).toList := by
  induction db with
  | nil => rfl
  | cons c cs ih =>
      simp only [List.map_cons, List.nodup_cons] at h
      by_cases hc : c.id = x
      · have hnil : cs.filter (fun d => d.id = x) = [] := by
          rw [List.filter_eq_nil_iff]
          intro d hd
          simp only [decide_eq_true_eq]
          intro hdx
          exact h.1 (List.mem_map.mpr ⟨d, hd, by rw [hdx, hc]⟩)
        simp [List.filter_cons, List.find?, hc, hnil]
      · simp [List.filter_cons, List.find?, hc, ih h.2]

/-- `flatMap` over option singleton lists is `filterMap`. -/
theorem flatMap_toList_eq_filterMap {α β : Type} (g : α → Option β) (l : List α) :
    l.flatMap (fun a => (g a).toList) = l.filterMap g := by
  induction l with
  | nil => rfl
  | cons a as ih => cases hg : g a <;> simp [hg, ih, List.filterMap_cons]

/-- `filterMap` keeps as many elements as the predicate `isSome ∘ g` holds of. -/
theorem length_filterMap_eq {α β : Type} (g : α → Option β) (l : List α) :
    (l.filterMap g).length = (l.filter (fun a => (g a).isSome)).length := by
  induction l with
  | nil => rfl
  | cons a as ih => cases hg : g a <;> simp [List.filterMap_cons, hg, ih]

/-- `find?` succeeds exactly when some element satisfies the predicate. -/
theorem find?_isSome_eq_any {α : Type} (p : α → Bool) (l : List α) :
    (l.find? p).isSome = l.any p := by
  induction l with
  | nil => rfl
  | cons a as ih => cases hp : p a <;> simp [List.find?, hp, ih]

/-- C8: `GET /enrolled` returns, for a course collection with unique ids,
one `{course, enrolledAt}` entry per enrollment of the user whose
courseId resolves to an existing course (that course document inlined),
and silently drops every enrollment whose referenced course is missing. -/
theorem C8_enrolled_join (email : String) (enr : List EnrollmentDoc)
    (db : List CourseDoc) (h : (db.map (fun c => c.id)).Nodup) :
    enrolledHandler email enr db =
      (enr.filter (fun e => e.userEmail = email)).filterMap
        (fun e => (db.find? (fun c => c.id = e.courseId)).map
          (fun c => (c, e.enrolledAt))) ∧
    (enrolledHandler email enr db).length =
      ((enr.filter (fun e => e.userEmail = email)).filter
        (fun e => db.any (fun c => c.id = e.courseId))).length ∧
    (∀ ce ∈ enrolledHandler email enr db,
      ce.1 ∈ db ∧ ∃ e ∈ enr, e.userEmail = email ∧ e.courseId = ce.1.id ∧
        e.enrolledAt = ce.2) := by
  have hfun : ∀ e : EnrollmentDoc,
      (db.filter (fun c => c.id = e.courseId)).map (fun c => (c, e.enrolledAt)) =
      ((db.find? (fun c => c.id = e.courseId)).map (fun c => (c, e.enrolledAt))).toList := by
    intro e
    rw [filter_id_eq_find e.courseId h]
    cases db.find? (fun c => c.id = e.courseId) <;> simp
  have h1 : enrolledHandler email enr db =
      (enr.filter (fun e => e.userEmail = email)).filterMap
        (fun e => (db.find? (fun c => c.id = e.courseId)).map
          (fun c => (c, e.enrolledAt))) := by
    unfold enrolledHandler
    rw [show (fun e : EnrollmentDoc =>
        (db.filter (fun c => c.id = e.courseId)).map (fun c => (c, e.enrolledAt))) =
        (fun e : EnrollmentDoc =>
        ((db.find? (fun c => c.id = e.courseId)).map
          (fun c => (c, e.enrolledAt))).toList) from funext hfun]
    exact flatMap_toList_eq_filterMap _ _
  refine ⟨h1, ?_, ?_⟩
  · rw [h1, length_filterMap_eq]
    congr 1
    apply List.filter_congr
    intro e _
    rw [← find?_isSome_eq_any]
    cases db.find? (fun c => c.id = e.courseId) <;> rfl
  · intro ce hce
    unfold enrolledHandler at hce
    rcases List.mem_flatMap.mp hce with ⟨e, he, hmem⟩
    rcases List.mem_map.mp hmem with ⟨c, hc, heq⟩
    rcases List.mem_filter.mp he with ⟨heenr, hemail⟩
    rcases List.mem_filter.mp hc with ⟨hcdb, hcid⟩
    subst heq
    refine ⟨hcdb, e, heenr, ?_, ?_, rfl⟩
    · simpa using hemail
    · have := of_decide_eq_true hcid
      exact this.symm

/-- A demonstration course document for witnesses. -/
def demoCourse : CourseDoc :=
  { id := "aabbccddeeff001122334455", title := some "Intro", image := none,
    imageUrl := none, price := some 10, duration := some "4w",
    category := some "dev", description := some "d", isFeatured := none,
    instructor := none, createdAt := some 1, updatedAt := none }

/-- Witness for C8: one enrollment resolves to the only course, a second
enrollment references a missing course and is dropped. -/
theorem C8_enrolled_join_witness :
    (enrolledHandler "s@x.com"
        [⟨"s@x.com", "aabbccddeeff001122334455", 5⟩,
         ⟨"s@x.com", "ffffffffffffffffffffffff", 6⟩] [demoCourse]).length =
      (([⟨"s@x.com", "aabbccddeeff001122334455", 5⟩,
         (⟨"s@x.com", "ffffffffffffffffffffffff", 6⟩ : EnrollmentDoc)].filter
          (fun e => e.userEmail = "s@x.com")).filter
        (fun e => [demoCourse].any (fun c => c.id = e.courseId))).length ∧
    enrolledHandler "s@x.com"
        [⟨"s@x.com", "aabbccddeeff001122334455", 5⟩,
         ⟨"s@x.com", "ffffffffffffffffffffffff", 6⟩] [demoCourse] =
      [(demoCourse, 5)] := by
  constructor
  · exact (C8_enrolled_join "s@x.com"
      [⟨"s@x.com", "aabbccddeeff001122334455", 5⟩,
       ⟨"s@x.com", "ffffffffffffffffffffffff", 6⟩] [demoCourse] (by decide)).2.1
  · decide

/-! ## C4: filtered paginated listing -/

/-- `startsWithChars` decides list prefixhood. -/
theorem startsWithChars_iff : ∀ (h n : List Char), startsWithChars h n = true ↔ n <+: h
  | _, [] => by simp [startsWithChars]
  | [], _ :: _ => by simp [startsWithChars]
  | c :: cs, n :: ns => by
      simp only [startsWithChars, Bool.and_eq_true, decide_eq_true_eq,
        List.cons_prefix_cons]
      constructor
      · rintro ⟨hc, hp⟩
        exact ⟨hc.symm, (startsWithChars_iff cs ns).mp hp⟩
      · rintro ⟨hc, hp⟩
        exact ⟨hc.symm, (startsWithChars_iff cs ns).mpr hp⟩

/-- `containsChars` decides list infixhood. -/
theorem containsChars_iff : ∀ (h n : List Char), containsChars h n = true ↔ n <:+: h
  | [], n => by
      cases n <;> simp [containsChars, List.isEmpty]
  | c :: cs, n => by
      simp only [containsChars, Bool.or_eq_true, startsWithChars_iff,
        containsChars_iff cs n, List.infix_cons_iff]

/-- A metacharacter-free parse yields the literal token sequence. -/
theorem parseRegexLite_lits : ∀ (l : List Char),
    l.all (fun c => decide (c ∉ regexMeta)) = true →
    parseRegexLite l = some (l.map RTok.lit)
  | [], _ => rfl
  | c :: cs, h => by
      rw [List.all_cons, Bool.and_eq_true] at h
      have hcm : c ∉ regexMeta := of_decide_eq_true h.1
      have hcd : ¬ c = '.' := fun he => hcm (by rw [he]; decide)
      simp [parseRegexLite, if_neg hcd, if_neg hcm, parseRegexLite_lits cs h.2]

/-- On literal token sequences, anchored regex matching is case-folded
list prefixhood. -/
theorem rtoksPrefixCI_lits : ∀ (l s : List Char),
    rtoksPrefixCI (l.map RTok.lit) s =
      startsWithChars (s.map Char.toLower) (l.map Char.toLower)
  | [], s => by cases s <;> simp [rtoksPrefixCI, startsWithChars]
  | _ :: _, [] => by simp [rtoksPrefixCI, startsWithChars]
  | c :: cs, x :: xs => by
      simp [rtoksPrefixCI, startsWithChars, rtoksPrefixCI_lits cs xs]

/-- On literal token sequences, unanchored regex search is case-folded
substring containment. -/
theorem rtoksSearchCI_lits : ∀ (l s : List Char),
    rtoksSearchCI (l.map RTok.lit) s =
      containsChars (s.map Char.toLower) (l.map Char.toLower)
  | l, [] => by cases l <;> simp [rtoksSearchCI, containsChars]
  | l, x :: xs => by
      simp [rtoksSearchCI, containsChars, rtoksPrefixCI_lits l (x :: xs),
        rtoksSearchCI_lits l xs]

/-- On a metacharacter-free pattern the modelled regex engine is exactly
case-insensitive substring containment. -/
theorem pcreLite_litOnly (pat s : String) (h : litOnly pat = true) :
    pcreLite pat s = containsCI s pat := by
  unfold litOnly at h
  unfold pcreLite
  rw [parseRegexLite_lits pat.toList h]
  exact rtoksSearchCI_lits pat.toList s.toList

/-- A course titled "abc", for the regex counterexample. -/
def dotTitleCourse : CourseDoc :=
  { demoCourse with title := some "abc" }

/-- Counterexample to C4 as stated: the raw search text reaches
`$regex` unescaped, so the server applies it as a regular expression,
not as a literal.  With search text "a.c" — whose `.` matches any
character — the course titled "abc" is returned by `GET /all-courses`,
although "abc" does not contain "a.c" ignoring case, refuting the
claim's "a course is returned iff its title contains the search text
ignoring case". -/
theorem C4_regex_metachar_counterexample :
    pcreLite "a.c" "abc" = true ∧
    allCoursesHandler pcreLite none (some "a.c") none none [dotTitleCourse] =
      [dotTitleCourse] ∧
    dotTitleCourse.title = some "abc" ∧
    containsCI "abc" "a.c" = false ∧
    ¬ (("a.c".toList.map Char.toLower) <:+: ("abc".toList.map Char.toLower)) := by
  refine ⟨by decide, by decide, by decide, by decide, ?_⟩
  rw [← containsChars_iff]
  decide

/-- C4 (amended): the query document of `GET /all-courses` applies
exactly an equality filter on `category` when given and, when `search`
is given, a case-insensitive match of the raw search text interpreted as
a regular expression against the title (evaluated by the server's regex
engine `rmatch`); when the search text is free of regex metacharacters —
on which any engine faithful to regex semantics degenerates to literal
search — a course passes the filter iff its title contains the search
text ignoring case; the handler then drops `(page-1)*limit` filtered
documents and returns at most `limit` of the rest, `limit` defaulting to
100 when absent. -/
theorem C4_allCourses_regex_paginate (rmatch : String → String → Bool)
    (category search : Option String) (pageQ limitQ : Option Nat)
    (db : List CourseDoc) :
    (∀ c, c ∈ db.filter (courseQueryMatches rmatch category search) ↔
      (c ∈ db ∧
       (truthy category = true → c.category = category) ∧
       (truthy search = true → ∃ t, c.title = some t ∧
          rmatch (search.getD "") t = true))) ∧
    ((∀ s, litOnly (search.getD "") = true →
        rmatch (search.getD "") s = containsCI s (search.getD "")) →
      litOnly (search.getD "") = true →
      ∀ c, c ∈ db.filter (courseQueryMatches rmatch category search) ↔
        (c ∈ db ∧
         (truthy category = true → c.category = category) ∧
         (truthy search = true → ∃ t, c.title = some t ∧
            ((search.getD "").toList.map Char.toLower) <:+:
              (t.toList.map Char.toLower)))) ∧
    (∀ lim, limitQ = some lim → 0 < lim →
      allCoursesHandler rmatch category search pageQ limitQ db =
        ((db.filter (courseQueryMatches rmatch category search)).drop
          ((pageQ.getD 1 - 1) * lim)).take lim ∧
      (allCoursesHandler rmatch category search pageQ limitQ db).length ≤ lim) ∧
    (limitQ = none →
      allCoursesHandler rmatch category search pageQ none db =
        ((db.filter (courseQueryMatches rmatch category search)).drop
          ((pageQ.getD 1 - 1) * 100)).take 100 ∧
      (allCoursesHandler rmatch category search pageQ none db).length ≤ 100) := by
  have h1 : ∀ c, c ∈ db.filter (courseQueryMatches rmatch category search) ↔
      (c ∈ db ∧
       (truthy category = true → c.category = category) ∧
       (truthy search = true → ∃ t, c.title = some t ∧
          rmatch (search.getD "") t = true)) := by
    intro c
    rw [List.mem_filter]
    constructor
    · rintro ⟨hc, hq⟩
      simp only [courseQueryMatches, Bool.and_eq_true, Bool.or_eq_true,
        Bool.not_eq_eq_eq_not, Bool.not_true, beq_iff_eq] at hq
      refine ⟨hc, ?_, ?_⟩
      · intro hcat
        rcases hq.1 with h | h
        · rw [hcat] at h; cases h
        · exact h
      · intro hs
        rcases hq.2 with h | h
        · rw [hs] at h; cases h
        · cases ht : c.title with
          | none => rw [ht] at h; cases h
          | some t =>
              rw [ht] at h
              exact ⟨t, rfl, h⟩
    · rintro ⟨hc, hcat, hs⟩
      refine ⟨hc, ?_⟩
      simp only [courseQueryMatches, Bool.and_eq_true, Bool.or_eq_true,
        Bool.not_eq_eq_eq_not, Bool.not_true, beq_iff_eq]
      constructor
      · by_cases h : truthy category = true
        · exact Or.inr (hcat h)
        · exact Or.inl (by simpa using h)
      · by_cases h : truthy search = true
        · rcases hs h with ⟨t, ht, hm⟩
          rw [ht]
          exact Or.inr hm
        · exact Or.inl (by simpa using h)
  refine ⟨h1, ?_, ?_, ?_⟩
  · intro heng hlit c
    rw [h1 c]
    constructor
    · rintro ⟨hc, hcat, hs⟩
      refine ⟨hc, hcat, fun hst => ?_⟩
      rcases hs hst with ⟨t, ht, hm⟩
      rw [heng t hlit] at hm
      exact ⟨t, ht, (containsChars_iff _ _).mp hm⟩
    · rintro ⟨hc, hcat, hs⟩
      refine ⟨hc, hcat, fun hst => ?_⟩
      rcases hs hst with ⟨t, ht, hinf⟩
      refine ⟨t, ht, ?_⟩
      rw [heng t hlit]
      exact (containsChars_iff _ _).mpr hinf
  · intro lim hlq hpos
    subst hlq
    have hne : lim ≠ 0 := Nat.pos_iff_ne_zero.mp hpos
    refine ⟨?_, ?_⟩
    · simp [allCoursesHandler, mongoLimit, hne]
    · simp only [allCoursesHandler, mongoLimit, Option.getD_some, if_neg hne]
      exact List.length_take_le _ _
  · intro hlq
    refine ⟨?_, ?_⟩
    · simp [allCoursesHandler, mongoLimit]
    · simp only [allCoursesHandler, mongoLimit, Option.getD_none]
      norm_num

/-- Witness for C4 (amended), at the modelled engine `pcreLite`: the
category-filter membership characterisation at a concrete course; the
substring characterisation for the metacharacter-free search "INTRO"
(matching the differently cased title "Intro"); and pagination with
`limit = 1` returning the single match. -/
theorem C4_allCourses_regex_paginate_witness :
    (demoCourse ∈ [demoCourse].filter (courseQueryMatches pcreLite (some "dev") none) ↔
      (demoCourse ∈ [demoCourse] ∧
       (truthy (some "dev") = true → demoCourse.category = some "dev") ∧
       (truthy (none : Option String) = true → ∃ t, demoCourse.title = some t ∧
          pcreLite (((none : Option String)).getD "") t = true))) ∧
    (demoCourse ∈ [demoCourse].filter (courseQueryMatches pcreLite none (some "INTRO")) ↔
      (demoCourse ∈ [demoCourse] ∧
       (truthy (none : Option String) = true → demoCourse.category = none) ∧
       (truthy (some "INTRO") = true → ∃ t, demoCourse.title = some t ∧
          (((some "INTRO" : Option String).getD "").toList.map Char.toLower) <:+:
            (t.toList.map Char.toLower)))) ∧
    allCoursesHandler pcreLite none (some "INTRO") none (some 1) [demoCourse] =
      (([demoCourse].filter (courseQueryMatches pcreLite none (some "INTRO"))).drop 0).take 1 ∧
    allCoursesHandler pcreLite none (some "INTRO") none (some 1) [demoCourse] =
      [demoCourse] := by
  refine ⟨(C4_allCourses_regex_paginate pcreLite (some "dev") none none none
    [demoCourse]).1 demoCourse, ?_, ?_, ?_⟩
  · exact (C4_allCourses_regex_paginate pcreLite none (some "INTRO") none none
      [demoCourse]).2.1 (fun s h => pcreLite_litOnly "INTRO" s h) (by decide)
      demoCourse
  · have h := ((C4_allCourses_regex_paginate pcreLite none (some "INTRO") none
      (some 1) [demoCourse]).2.2.1 1 rfl (by decide)).1
    simpa using h
  · decide

/-! ## C5: featured courses -/

/-- The descending `createdAt` order the featured query sorts by. -/
def createdAtGe (a b : CourseDoc) : Prop :=
  b.createdAt.getD 0 ≤ a.createdAt.getD 0

/-- Membership is preserved by the sorting insert. -/
theorem mem_insertByCreatedAtDesc {c d : CourseDoc} :
    ∀ {l : List CourseDoc}, d ∈ insertByCreatedAtDesc c l ↔ d = c ∨ d ∈ l
  | [] => by simp [insertByCreatedAtDesc]
  | e :: es => by
      by_cases h : e.createdAt.getD 0 < c.createdAt.getD 0
      · simp [insertByCreatedAtDesc, h]
      · simp only [insertByCreatedAtDesc, if_neg h, List.mem_cons,
          mem_insertByCreatedAtDesc (l := es)]
        tauto

/-- The sorting insert preserves descending sortedness. -/
theorem pairwise_insertByCreatedAtDesc {c : CourseDoc} :
    ∀ {l : List CourseDoc}, l.Pairwise createdAtGe →
      (insertByCreatedAtDesc c l).Pairwise createdAtGe
  | [], _ => by simp [insertByCreatedAtDesc, List.pairwise_cons]
  | e :: es, h => by
      rcases List.pairwise_cons.mp h with ⟨he, hes⟩
      by_cases hlt : e.createdAt.getD 0 < c.createdAt.getD 0
      · rw [insertByCreatedAtDesc, if_pos hlt, List.pairwise_cons]
        refine ⟨?_, h⟩
        intro d hd
        rcases List.mem_cons.mp hd with rfl | hd
        · exact Nat.le_of_lt hlt
        · exact Nat.le_trans (he d hd) (Nat.le_of_lt hlt)
      · rw [insertByCreatedAtDesc, if_neg hlt, List.pairwise_cons]
        refine ⟨?_, pairwise_insertByCreatedAtDesc hes⟩
        intro d hd
        rcases mem_insertByCreatedAtDesc.mp hd with rfl | hd
        · exact Nat.le_of_not_lt hlt
        · exact he d hd

/-- The featured sort is sorted by `createdAt` descending. -/
theorem pairwise_sortByCreatedAtDesc (l : List CourseDoc) :
    (sortByCreatedAtDesc l).Pairwise createdAtGe := by
  induction l with
  | nil => simp [sortByCreatedAtDesc]
  | cons c cs ih => exact pairwise_insertByCreatedAtDesc ih

/-- The featured sort is a permutation-level reordering: same members. -/
theorem mem_sortByCreatedAtDesc {d : CourseDoc} :
    ∀ {l : List CourseDoc}, d ∈ sortByCreatedAtDesc l ↔ d ∈ l
  | [] => Iff.rfl
  | c :: cs => by
      simp only [sortByCreatedAtDesc, List.foldr_cons, List.mem_cons]
      rw [show cs.foldr insertByCreatedAtDesc [] = sortByCreatedAtDesc cs from rfl] at *
      rw [mem_insertByCreatedAtDesc, mem_sortByCreatedAtDesc (l := cs)]

/-- The reading of the claim's image normalisation: "the stored image if
present, else the legacy imageUrl field, else the empty string". -/
def specImageNorm (c : CourseDoc) : String :=
  match c.image with
  | some s => s
  | none => c.imageUrl.getD ""

/-- A legacy featured course document whose `image` key is present but
holds the empty string, with a nonempty legacy `imageUrl`. -/
def legacyCourse : CourseDoc :=
  { id := "aabbccddeeff001122334455", title := some "Legacy", image := some "",
    imageUrl := some "https://img.example/legacy.png", price := some 10,
    duration := some "4w", category := some "dev", description := some "d",
    isFeatured := some true, instructor := none, createdAt := some 3,
    updatedAt := none }

/-- Counterexample to C5 as stated: on a featured course whose stored
`image` is present but empty (`""`) with a legacy `imageUrl` present,
`GET /featured-courses` returns the legacy `imageUrl` (JS `||` falls
through the falsy empty string), not the present stored image as the
claim's normalisation predicts. -/
theorem C5_featured_image_counterexample :
    (featuredHandler none [legacyCourse]).map (fun c => c.image) =
      [some "https://img.example/legacy.png"] ∧
    legacyCourse.image = some "" ∧
    legacyCourse.isFeatured = some true ∧
    specImageNorm legacyCourse = "" ∧
    (featuredHandler none [legacyCourse]).map (fun c => c.image) ≠
      [some (specImageNorm legacyCourse)] := by
  refine ⟨by decide, by decide, by decide, by decide, by decide⟩

/-- C5 (amended): `GET /featured-courses` returns, for a positive
effective limit `min(limit ?? 6, 100)`, the featured documents
(`isFeatured = true`) sorted by `createdAt` descending and truncated to
at most that many entries, each normalised so that `image` becomes the
stored image if it is present and nonempty, else the legacy `imageUrl`
if present and nonempty, else the empty string. -/
theorem C5_featured_amended (limitQ : Option Nat) (db : List CourseDoc) :
    (0 < min (limitQ.getD 6) 100 →
      featuredHandler limitQ db =
        ((sortByCreatedAtDesc (db.filter (fun c => c.isFeatured == some true))).take
          (min (limitQ.getD 6) 100)).map normImage ∧
      (featuredHandler limitQ db).length ≤ min (limitQ.getD 6) 100) ∧
    (∀ c ∈ featuredHandler limitQ db,
      ∃ c₀, c₀ ∈ db ∧ c₀.isFeatured = some true ∧ c = normImage c₀) ∧
    (featuredHandler limitQ db).Pairwise createdAtGe ∧
    (∀ c₀, (normImage c₀).image =
      some (if truthy c₀.image then c₀.image.getD ""
            else if truthy c₀.imageUrl then c₀.imageUrl.getD "" else "")) ∧
    (∀ c₀, (normImage c₀).createdAt = c₀.createdAt) := by
  refine ⟨?_, ?_, ?_, ?_, fun c₀ => rfl⟩
  · intro hpos
    have hne : min (limitQ.getD 6) 100 ≠ 0 := Nat.pos_iff_ne_zero.mp hpos
    constructor
    · simp [featuredHandler, mongoLimit, hne]
    · simp only [featuredHandler, mongoLimit, if_neg hne, List.length_map]
      exact List.length_take_le _ _
  · intro c hc
    simp only [featuredHandler, List.mem_map] at hc
    rcases hc with ⟨c₀, hc₀, rfl⟩
    have hc₀' : c₀ ∈ sortByCreatedAtDesc
        (db.filter (fun c => c.isFeatured == some true)) := by
      revert hc₀
      unfold mongoLimit
      split
      · exact id
      · exact fun h => List.take_subset _ _ h
    have hmem := mem_sortByCreatedAtDesc.mp hc₀'
    rcases List.mem_filter.mp hmem with ⟨hdb, hfeat⟩
    exact ⟨c₀, hdb, by simpa using hfeat, rfl⟩
  · rw [show featuredHandler limitQ db = (mongoLimit (min (limitQ.getD 6) 100)
      (sortByCreatedAtDesc (db.filter (fun c => c.isFeatured == some true)))).map
        normImage from rfl]
    rw [List.pairwise_map]
    have hsorted := pairwise_sortByCreatedAtDesc
      (db.filter (fun c => c.isFeatured == some true))
    have hsub : List.Sublist
        (mongoLimit (min (limitQ.getD 6) 100)
          (sortByCreatedAtDesc (db.filter (fun c => c.isFeatured == some true))))
        (sortByCreatedAtDesc (db.filter (fun c => c.isFeatured == some true))) := by
      unfold mongoLimit
      split
      · exact List.Sublist.refl _
      · exact List.take_sublist _ _
    have hpw := hsorted.sublist hsub
    exact hpw.imp (fun h => h)
  · intro c₀
    by_cases h1 : truthy c₀.image = true
    · simp [normImage, orStr, h1]
    · by_cases h2 : truthy c₀.imageUrl = true
      · simp [normImage, orStr, h1, h2]
      · simp [normImage, orStr, h1, h2]

/-- A five-course collection for the featured witness: three featured
courses with distinct creation times and two non-featured ones. -/
def featuredDemoDb : List CourseDoc :=
  [{ demoCourse with
      id := "aaaaaaaaaaaaaaaaaaaaaaa1"
      isFeatured := some true
      createdAt := some 1 },
   { demoCourse with
      id := "aaaaaaaaaaaaaaaaaaaaaaa2"
      isFeatured := some true
      createdAt := some 5 },
   { demoCourse with
      id := "aaaaaaaaaaaaaaaaaaaaaaa3"
      isFeatured := some true
      createdAt := some 3 },
   { demoCourse with
      id := "aaaaaaaaaaaaaaaaaaaaaaa4"
      isFeatured := some false },
   { demoCourse with
      id := "aaaaaaaaaaaaaaaaaaaaaaa5"
      isFeatured := none }]

/-- Witness for C5 (amended), on the spec's example: three featured and
two non-featured courses with `limit = 2` give exactly two featured
documents ordered by `createdAt` descending. -/
theorem C5_featured_amended_witness :
    (featuredHandler (some 2) featuredDemoDb).length ≤ 2 ∧
    (featuredHandler (some 2) featuredDemoDb).map (fun c => (c.id, c.createdAt)) =
      [("aaaaaaaaaaaaaaaaaaaaaaa2", some 5), ("aaaaaaaaaaaaaaaaaaaaaaa3", some 3)] := by
  constructor
  · have h := ((C5_featured_amended (some 2) featuredDemoDb).1 (by decide)).2
    simpa using h
  · decide

/-! ## C7: instructor directory -/

/-- Every entry the group-by-email dedupe keeps is the first subdocument
with its email in pipeline order, and its email was not already seen. -/
theorem dedupeGo_first (seen : List (Option String)) :
    ∀ (l : List InstructorDoc), ∀ i ∈ dedupeGo seen l,
      i.email ∉ seen ∧ l.find? (fun j => j.email == i.email) = some i
  | [], i, hi => by cases hi
  | x :: rest, i, hi => by
      by_cases hx : x.email ∈ seen
      · rw [dedupeGo, if_pos hx] at hi
        rcases dedupeGo_first seen rest i hi with ⟨hns, hfind⟩
        have hne : ¬ (x.email == i.email) = true := by
          intro hbe
          exact hns (by rwa [← beq_iff_eq.mp hbe])
        refine ⟨hns, ?_⟩
        rw [List.find?, Bool.eq_false_iff.mpr hne]
        exact hfind
      · rw [dedupeGo, if_neg hx] at hi
        rcases List.mem_cons.mp hi with rfl | hi
        · exact ⟨hx, by rw [List.find?, beq_self_eq_true]⟩
        · rcases dedupeGo_first (x.email :: seen) rest i hi with ⟨hns, hfind⟩
          have hxne : x.email ≠ i.email := fun he =>
            hns (he ▸ List.mem_cons_self x.email seen)
          have hns' : i.email ∉ seen := fun hmem =>
            hns (List.mem_cons_of_mem _ hmem)
          refine ⟨hns', ?_⟩
          rw [List.find?, Bool.eq_false_iff.mpr (fun hbe => hxne (beq_iff_eq.mp hbe))]
          exact hfind

/-- The dedupe produces pairwise-distinct emails, none of them already seen. -/
theorem dedupeGo_nodup (seen : List (Option String)) :
    ∀ (l : List InstructorDoc),
      ((dedupeGo seen l).map (fun i => i.email)).Nodup ∧
      ∀ e ∈ (dedupeGo seen l).map (fun i => i.email), e ∉ seen
  | [] => ⟨List.nodup_nil, by simp [dedupeGo]⟩
  | x :: rest => by
      by_cases hx : x.email ∈ seen
      · rw [dedupeGo, if_pos hx]
        exact dedupeGo_nodup seen rest
      · rw [dedupeGo, if_neg hx]
        rcases dedupeGo_nodup (x.email :: seen) rest with ⟨hnd, hseen⟩
        constructor
        · rw [List.map_cons, List.nodup_cons]
          exact ⟨fun hmem => hseen _ hmem (List.mem_cons_self _ _), hnd⟩
        · intro e he
          rcases List.mem_cons.mp he with rfl | he
          · exact hx
          · exact fun hmem => hseen e he (List.mem_cons_of_mem _ hmem)

/-- C7: `GET /instructors` with a positive effective limit
`min(limit ?? 4, 100)`: when at least one user record has role
"instructor", the result is those user records (capped at the limit)
projected to `{name, email, photo || ''}`; when none exists, the result
is the distinct-by-email list of course instructor subdocuments, the
first subdocument encountered per email winning, capped at the limit; in
both cases at most `limit` entries are returned. -/
theorem C7_instructors_primary_fallback (limitQ : Option Nat) (users : List UserRec)
    (db : List CourseDoc) (hpos : 0 < min (limitQ.getD 4) 100) :
    ((users.filter (fun u => u.role = "instructor")) ≠ [] →
      instructorsHandler limitQ users db =
        ((users.filter (fun u => u.role = "instructor")).take
          (min (limitQ.getD 4) 100)).map
          (fun u => ⟨u.name, some u.email, some ((orStr u.photo (some "")).getD "")⟩)) ∧
    ((users.filter (fun u => u.role = "instructor")) = [] →
      instructorsHandler limitQ users db =
        (dedupeByEmail (instructorSubdocs db)).take (min (limitQ.getD 4) 100) ∧
      (∀ i ∈ instructorsHandler limitQ users db,
        (instructorSubdocs db).find? (fun j => j.email == i.email) = some i) ∧
      ((instructorsHandler limitQ users db).map (fun i => i.email)).Nodup) ∧
    (instructorsHandler limitQ users db).length ≤ min (limitQ.getD 4) 100 := by
  have hne : min (limitQ.getD 4) 100 ≠ 0 := Nat.pos_iff_ne_zero.mp hpos
  refine ⟨?_, ?_, ?_⟩
  · intro hfil
    have hlen : 0 < ((users.filter (fun u => u.role = "instructor")).take
        (min (limitQ.getD 4) 100)).length := by
      rw [List.length_take]
      exact lt_min hpos (List.length_pos.mpr hfil)
    simp only [instructorsHandler, mongoLimit, if_neg hne, decide_eq_true_eq]
    rw [if_pos hlen, List.take_take, min_self]
  · intro hfil
    have hhandler : instructorsHandler limitQ users db =
        (dedupeByEmail (instructorSubdocs db)).take (min (limitQ.getD 4) 100) := by
      simp only [instructorsHandler, mongoLimit, hfil, if_neg hne]
      simp
    refine ⟨hhandler, ?_, ?_⟩
    · intro i hi
      rw [hhandler] at hi
      have hi' : i ∈ dedupeByEmail (instructorSubdocs db) :=
        List.take_subset _ _ hi
      exact (dedupeGo_first [] (instructorSubdocs db) i hi').2
    · rw [hhandler, List.map_take]
      have hnd := (dedupeGo_nodup [] (instructorSubdocs db)).1
      exact List.Nodup.sublist (List.take_sublist _ _) hnd
  · unfold instructorsHandler
    simp only [mongoLimit, if_neg hne]
    split
    · rw [List.length_map]
      exact List.length_take_le _ _
    · exact List.length_take_le _ _

/-- Witness for C7: the primary branch projects the single instructor
user (photo defaulted to ""); with no instructor users, the fallback
dedupes three course subdocuments sharing one email down to the first
per email. -/
theorem C7_instructors_primary_fallback_witness :
    instructorsHandler none
      [⟨"i@x.com", some "Ina", none, "instructor"⟩,
       ⟨"s@x.com", some "Stu", none, "student"⟩] [] =
      [(⟨some "Ina", some "i@x.com", some ""⟩ : InstructorDoc)] ∧
    instructorsHandler none []
      [{ demoCourse with
          id := "aaaaaaaaaaaaaaaaaaaaaaa1"
          instructor := some ⟨some "First", some "i@x.com", some "p1"⟩ },
       { demoCourse with
          id := "aaaaaaaaaaaaaaaaaaaaaaa2"
          instructor := some ⟨some "Dup", some "i@x.com", some "p2"⟩ },
       { demoCourse with
          id := "aaaaaaaaaaaaaaaaaaaaaaa3"
          instructor := some ⟨some "Other", some "j@x.com", none⟩ }] =
      [(⟨some "First", some "i@x.com", some "p1"⟩ : InstructorDoc),
       (⟨some "Other", some "j@x.com", none⟩ : InstructorDoc)] := by
  constructor
  · have h := (C7_instructors_primary_fallback none
      [⟨"i@x.com", some "Ina", none, "instructor"⟩,
       ⟨"s@x.com", some "Stu", none, "student"⟩] [] (by decide)).1 (by decide)
    rw [h]
    decide
  · have h := ((C7_instructors_primary_fallback none []
      [{ demoCourse with
          id := "aaaaaaaaaaaaaaaaaaaaaaa1"
          instructor := some ⟨some "First", some "i@x.com", some "p1"⟩ },
       { demoCourse with
          id := "aaaaaaaaaaaaaaaaaaaaaaa2"
          instructor := some ⟨some "Dup", some "i@x.com", some "p2"⟩ },
       { demoCourse with
          id := "aaaaaaaaaaaaaaaaaaaaaaa3"
          instructor := some ⟨some "Other", some "j@x.com", none⟩ }] (by decide)).2.1
      (by decide)).1
    rw [h]
    decide

/-! ## C3: course creation round trip and first-violation validation -/

/-- Normal form of the required-string check. -/
theorem requiredString_norm (k : String) (v : Option String) :
    requiredString k v = if v.any (fun s => s ≠ "") then none else some k := by
  cases v with
  | none => simp [requiredString]
  | some s => by_cases hs : s = "" <;> simp [requiredString, hs]

/-- Normal form of the required-URI check. -/
theorem requiredUri_norm (k : String) (v : Option String) :
    requiredUri k v = if v.any isValidUri then none else some k := by
  cases v with
  | none => simp [requiredUri]
  | some s => cases h : isValidUri s <;> simp [requiredUri, h]

/-- Normal form of the nonnegative-number check. -/
theorem requiredMin0_norm (k : String) (v : Option Int) :
    requiredMin0 k v = if v.any (fun n => 0 ≤ n) then none else some k := by
  cases v with
  | none => simp [requiredMin0]
  | some n => by_cases h : (0 : Int) ≤ n <;> simp [requiredMin0, h]

/-- Normal form of the required-email check. -/
theorem requiredEmail_norm (k : String) (v : Option String) :
    requiredEmail k v = if v.any (fun s => s ≠ "" && isValidEmail s) then none
      else some k := by
  cases v with
  | none => simp [requiredEmail]
  | some s => cases h : (s ≠ "" && isValidEmail s : Bool) <;> simp_all [requiredEmail]

/-- Normal form of the optional photo check. -/
theorem optionalUriOrEmpty_norm (k : String) (v : Option String) :
    optionalUriOrEmpty k v = if photoOk v then none else some k := by
  cases v with
  | none => simp [optionalUriOrEmpty, photoOk]
  | some s => cases h : (s = "" || isValidUri s : Bool) <;>
      simp_all [optionalUriOrEmpty, photoOk]

/-- Short-circuiting `<|>` over an if-shaped first check. -/
theorem orElse_if {b : Bool} {k : String} {rest : Option String} :
    ((if b then none else some k) <|> rest) = if b then rest else some k := by
  cases b <;> rfl

/-- `find?` on a cons, as an if. -/
theorem find?_cons_eq {α : Type} (q : α → Bool) (a : α) (l : List α) :
    List.find? q (a :: l) = if q a then some a else List.find? q l := by
  cases hq : q a <;> simp [List.find?, hq]

/-- Abort-early evaluation returns the first failing check's name. -/
theorem chainOf_eq_find? : ∀ l : List (String × Bool),
    chainOf l = (l.find? (fun kb => !kb.2)).map (fun kb => kb.1)
  | [] => rfl
  | kb :: rest => by
      rw [chainOf, find?_cons_eq]
      cases hb : kb.2 <;> simp [hb, chainOf_eq_find? rest]

/-- The Joi validation chain evaluates the schema checks in order. -/
theorem validateCourse_eq_chain (p : CoursePayload) :
    validateCourse p = chainOf (checks p) := by
  cases hI : p.instructor with
  | none =>
      simp only [validateCourse, checks, hI, Option.any_none, Option.isSome_none]
      rw [requiredString_norm, requiredUri_norm, requiredMin0_norm, requiredString_norm,
        requiredString_norm, requiredString_norm]
      rw [orElse_if, orElse_if, orElse_if, orElse_if, orElse_if, orElse_if]
      simp [chainOf]
  | some i =>
      simp only [validateCourse, checks, hI, Option.any_some, Option.isSome_some]
      rw [requiredString_norm, requiredUri_norm, requiredMin0_norm, requiredString_norm,
        requiredString_norm, requiredString_norm, requiredString_norm,
        requiredEmail_norm, optionalUriOrEmpty_norm]
      rw [orElse_if, orElse_if, orElse_if, orElse_if, orElse_if, orElse_if, orElse_if,
        orElse_if]
      simp [chainOf]

/-- C3: `POST /courses` validation returns the name of the first schema
check (in schema key order) the payload violates; on a valid payload the
handler inserts `{ ...payload, createdAt: now }` under the generated id,
and `GET /courses/:id` on that id then returns exactly the input fields
plus the generated id and `createdAt`; on an invalid payload the handler
answers 400 with the first violated field and inserts nothing. -/
theorem C3_course_insert_roundtrip (p : CoursePayload) (newId : String) (now : Nat)
    (db : List CourseDoc) :
    validateCourse p = ((checks p).find? (fun kb => !kb.2)).map (fun kb => kb.1) ∧
    (validateCourse p = none → isValidObjectId newId = true →
      (∀ d ∈ db, ¬ d.id = newId) →
      postCourses p newId now db = (.ok newId, db ++ [payloadToDoc p newId now]) ∧
      getCourse newId (postCourses p newId now db).2 = .ok (payloadToDoc p newId now) ∧
      (payloadToDoc p newId now).id = newId ∧
      (payloadToDoc p newId now).createdAt = some now ∧
      (payloadToDoc p newId now).title = p.title ∧
      (payloadToDoc p newId now).image = p.image ∧
      (payloadToDoc p newId now).price = p.price ∧
      (payloadToDoc p newId now).duration = p.duration ∧
      (payloadToDoc p newId now).category = p.category ∧
      (payloadToDoc p newId now).description = p.description ∧
      (payloadToDoc p newId now).isFeatured = p.isFeatured ∧
      (payloadToDoc p newId now).instructor =
        p.instructor.map (fun i => ⟨i.name, i.email, i.photo⟩) ∧
      (payloadToDoc p newId now).updatedAt = none) ∧
    (∀ f, validateCourse p = some f →
      postCourses p newId now db = (.err 400 f, db)) := by
  refine ⟨by rw [validateCourse_eq_chain, chainOf_eq_find?], ?_, ?_⟩
  · intro hval hid hfresh
    have hpost : postCourses p newId now db =
        (.ok newId, db ++ [payloadToDoc p newId now]) := by
      simp [postCourses, hval]
    refine ⟨hpost, ?_, rfl, rfl, rfl, rfl, rfl, rfl, rfl, rfl, rfl, rfl, rfl⟩
    rw [hpost]
    have hfind : (db ++ [payloadToDoc p newId now]).find?
        (fun c => c.id = newId) = some (payloadToDoc p newId now) := by
      rw [find?_append_of_none]
      · simp [List.find?, payloadToDoc]
      · intro d hd
        simpa using hfresh d hd
    simp [getCourse, hid, hfind]
  · intro f hval
    simp [postCourses, hval]

/-- Witness for C3: a schema-valid payload round-trips through insert and
get on a fresh id, and a payload with a malformed image URI is rejected
400 naming "image" (title being satisfied first). -/
theorem C3_course_insert_roundtrip_witness :
    getCourse "aabbccddeeff001122334455"
      (postCourses
        ⟨some "T", some "https://img.example/a.png", some 10, some "4w", some "dev",
         some "great", some true, some ⟨some "N", some "n@x.com", some ""⟩⟩
        "aabbccddeeff001122334455" 7 []).2 =
      .ok (payloadToDoc
        ⟨some "T", some "https://img.example/a.png", some 10, some "4w", some "dev",
         some "great", some true, some ⟨some "N", some "n@x.com", some ""⟩⟩
        "aabbccddeeff001122334455" 7) ∧
    postCourses
        ⟨some "T", some "not a uri", some 10, some "4w", some "dev",
         some "great", some true, some ⟨some "N", some "n@x.com", some ""⟩⟩
        "aabbccddeeff001122334455" 7 [] = (.err 400 "image", []) := by
  constructor
  · exact ((C3_course_insert_roundtrip
      ⟨some "T", some "https://img.example/a.png", some 10, some "4w", some "dev",
       some "great", some true, some ⟨some "N", some "n@x.com", some ""⟩⟩
      "aabbccddeeff001122334455" 7 []).2.1 (by decide) (by decide)
      (by intro d hd; cases hd)).2.1
  · exact (C3_course_insert_roundtrip
      ⟨some "T", some "not a uri", some 10, some "4w", some "dev",
       some "great", some true, some ⟨some "N", some "n@x.com", some ""⟩⟩
      "aabbccddeeff001122334455" 7 []).2.2 "image" (by decide)

end TechSprint
